import Mathlib

/-!
Shallow embedding of `divvysim` (src/src/split.rs) and verification of the
stated properties of `split_decimal`.

The Rust code operates on `rust_decimal::Decimal`, reading only its i128
mantissa and rebuilding outputs with `Decimal::from_i128_with_scale`.  We
embed a decimal as a (mantissa, scale) pair with an unbounded integer
mantissa; all arithmetic in `split_decimal` is plain i128 arithmetic on the
mantissa (truncating division `/` and remainder `%`, embedded as `Int.tdiv`
and `Int.tmod`).  Division by zero panics in Rust, so the embedding returns
`Option`, with `none` standing for the `recipients == 0` runtime trap.
-/

/-- A decimal value: an integer mantissa together with a scale, mirroring
the (mantissa, scale) view of `rust_decimal::Decimal` used by the code. -/
structure Decimal where
  mantissa : Int
  scale : Nat
deriving Repr, DecidableEq

/-- `Decimal::from_i128_with_scale(value, scale)`. -/
def Decimal.from_i128_with_scale (value : Int) (scale : Nat) : Decimal :=
  { mantissa := value, scale := scale }

/-- `splits.iter().map(|d| d.mantissa()).sum()` as used twice in the code. -/
def mantissaSum (splits : List Decimal) : Int :=
  (splits.map Decimal.mantissa).sum

/-- The reconciliation while-loop of `split_decimal` (src/split.rs lines
38-46): while `diff = raw - total > 0`, bump the first share by one minimal
unit and recompute the sum.  The empty-list branch is unreachable from
`split_decimal` (there `splits` has positive length); in Rust `splits[0]`
would panic there, we return the list unchanged. -/
def reconcile (raw : Int) (scale : Nat) (splits : List Decimal) : List Decimal :=
  if h : 0 < raw - mantissaSum splits then
    match splits with
    | [] => []
    | s :: rest =>
        reconcile raw scale (Decimal.from_i128_with_scale (s.mantissa + 1) scale :: rest)
  else
    splits
termination_by (raw - mantissaSum splits).toNat
decreasing_by
  simp only [mantissaSum, List.map, List.sum_cons, Decimal.from_i128_with_scale] at *
  omega

/-- The initial distribution (src/split.rs lines 20-31): each recipient `i`
gets `base_share + extra` minimal units where `base_share = raw / recipients`,
`remainder = raw % recipients` (truncating i128 division) and `extra` is one
exactly when `(i as i128) < remainder`. -/
def initial_splits (raw : Int) (recipients : Nat) (scale : Nat) : List Decimal :=
  (List.range recipients).map fun (i : Nat) =>
    let extra : Int := if (i : Int) < raw.tmod recipients then 1 else 0
    Decimal.from_i128_with_scale (raw.tdiv recipients + extra) scale

/-- `split_decimal(amount, recipients, scale)` (src/split.rs lines 18-49).
`raw = amount.mantissa()`; with `recipients == 0` the division
`raw / (recipients as i128)` panics in Rust, embedded as `none`. -/
def split_decimal (amount : Decimal) (recipients : Nat) (scale : Nat) :
    Option (List Decimal) :=
  if recipients = 0 then
    none
  else
    some (reconcile amount.mantissa scale (initial_splits amount.mantissa recipients scale))

/-! ### Basic lemmas about the embedded operations -/

lemma mantissaSum_nil : mantissaSum [] = 0 := rfl

lemma mantissaSum_cons (d : Decimal) (l : List Decimal) :
    mantissaSum (d :: l) = d.mantissa + mantissaSum l := by
  simp [mantissaSum]

lemma mantissaSum_append (l₁ l₂ : List Decimal) :
    mantissaSum (l₁ ++ l₂) = mantissaSum l₁ + mantissaSum l₂ := by
  simp [mantissaSum]

/-- Negative dividends give non-positive truncating remainders (the sign of
`%` on i128 follows the dividend). -/
lemma tmod_nonpos (a b : Int) (h : a ≤ 0) : a.tmod b ≤ 0 := by
  rcases a with m | m
  · rw [Int.ofNat_eq_coe] at h
    have hm : m = 0 := by omega
    subst hm
    show (0 : Int).tmod b ≤ 0
    simp
  · rcases b with k | k <;> simp only [Int.tmod, Int.ofNat_eq_coe] <;> omega

/-- Sum of `base + extra` over the recipient indices `0, ..., n-1`, where
`extra` is one exactly below the threshold `m`. -/
lemma sum_range_base_extra (b m : Int) (s : Nat) (n : Nat) :
    mantissaSum ((List.range n).map fun (i : Nat) =>
      Decimal.from_i128_with_scale (b + if (i : Int) < m then 1 else 0) s)
      = n * b + max 0 (min m n) := by
  induction n with
  | zero => simp [mantissaSum]
  | succ n ih =>
      rw [List.range_succ, List.map_append, mantissaSum_append, ih]
      simp only [List.map_cons, List.map_nil, mantissaSum_cons, mantissaSum_nil,
        Decimal.from_i128_with_scale]
      push_cast
      rw [add_one_mul]
      split <;> omega

/-- Closed form for the mantissa sum of the initial distribution. -/
lemma mantissaSum_initial_splits (raw : Int) (n s : Nat) :
    mantissaSum (initial_splits raw n s)
      = n * raw.tdiv n + max 0 (min (raw.tmod n) n) := by
  have h := sum_range_base_extra (raw.tdiv n) (raw.tmod n) s n
  simpa [initial_splits] using h

/-- With a non-negative `raw` the initial distribution already sums to `raw`
exactly: `n * (raw / n) + (raw % n) = raw` and the remainder lies in `[0, n)`. -/
lemma initial_splits_sum_eq (raw : Int) (n s : Nat) (hraw : 0 ≤ raw) (hn : 0 < n) :
    mantissaSum (initial_splits raw n s) = raw := by
  rw [mantissaSum_initial_splits]
  have h1 : 0 ≤ raw.tmod n := Int.tmod_nonneg _ hraw
  have h2 : raw.tmod n < (n : Int) := Int.tmod_lt_of_pos _ (by exact_mod_cast hn)
  have h3 := Int.tmod_add_tdiv raw (n : Int)
  set y := (n : Int) * raw.tdiv (n : Int) with hy
  omega

/-- If the reconciliation diff `raw - sum` is not positive, the while-loop
body never executes and the shares come back unchanged. -/
lemma reconcile_of_le (raw : Int) (s : Nat) (splits : List Decimal)
    (h : raw - mantissaSum splits ≤ 0) :
    reconcile raw s splits = splits := by
  rw [reconcile, dif_neg (by omega)]

/-- For every positive recipient count the reconciliation diff starts at
`raw % n` when `raw < 0` and at `0` when `raw ≥ 0`; either way it is not
positive, so `split_decimal` returns exactly the initial distribution. -/
lemma split_decimal_eq_initial (amount : Decimal) (n s : Nat) (hn : 0 < n) :
    split_decimal amount n s = some (initial_splits amount.mantissa n s) := by
  rw [split_decimal, if_neg (by omega)]
  congr 1
  apply reconcile_of_le
  rw [mantissaSum_initial_splits]
  have h2 : amount.mantissa.tmod n < (n : Int) :=
    Int.tmod_lt_of_pos _ (by exact_mod_cast hn)
  have h3 := Int.tmod_add_tdiv amount.mantissa (n : Int)
  set y := (n : Int) * amount.mantissa.tdiv (n : Int) with hy
  omega

lemma initial_splits_length (raw : Int) (n s : Nat) :
    (initial_splits raw n s).length = n := by
  simp [initial_splits]

/-- Every initial share carries the requested output scale and a mantissa of
either `raw / n` or `raw / n + 1`; when the remainder is not positive no share
gets the extra unit. -/
lemma mem_initial_splits {raw : Int} {n s : Nat} {d : Decimal}
    (hd : d ∈ initial_splits raw n s) :
    d.scale = s ∧ (d.mantissa = raw.tdiv n ∨ d.mantissa = raw.tdiv n + 1)
      ∧ (raw.tmod n ≤ 0 → d.mantissa = raw.tdiv n) := by
  simp only [initial_splits, List.mem_map, List.mem_range] at hd
  obtain ⟨i, hi, rfl⟩ := hd
  refine ⟨rfl, ?_, ?_⟩
  · dsimp [Decimal.from_i128_with_scale]
    split <;> simp
  · intro hm
    dsimp [Decimal.from_i128_with_scale]
    rw [if_neg (by omega)]
    omega

lemma initial_splits_getElem (raw : Int) (n s i : Nat) (hi : i < n) :
    (initial_splits raw n s)[i]?
      = some (Decimal.from_i128_with_scale
          (raw.tdiv n + if (i : Int) < raw.tmod n then 1 else 0) s) := by
  simp [initial_splits, List.getElem?_map, List.getElem?_range hi]

/-! ### Concrete evaluations shared by several properties -/

lemma eval_10001_4 : split_decimal (Decimal.from_i128_with_scale 10001 2) 4 2 =
    some [Decimal.from_i128_with_scale 2501 2, Decimal.from_i128_with_scale 2500 2,
      Decimal.from_i128_with_scale 2500 2, Decimal.from_i128_with_scale 2500 2] := by
  rw [split_decimal_eq_initial _ _ _ (by norm_num)]
  decide

lemma eval_10001_3 : split_decimal (Decimal.from_i128_with_scale 10001 2) 3 2 =
    some [Decimal.from_i128_with_scale 3334 2, Decimal.from_i128_with_scale 3334 2,
      Decimal.from_i128_with_scale 3333 2] := by
  rw [split_decimal_eq_initial _ _ _ (by norm_num)]
  decide

lemma eval_1234567_1 : split_decimal (Decimal.from_i128_with_scale 1234567 0) 1 2 =
    some [Decimal.from_i128_with_scale 1234567 2] := by
  rw [split_decimal_eq_initial _ _ _ (by norm_num)]
  decide

/-! ### Properties of `split_decimal` -/

/-- C1: for every amount whose mantissa `raw` is non-negative, every
recipients count at least one, and every output scale, the sum of the
mantissas of the shares returned by `split_decimal` equals `raw` exactly. -/
theorem split_decimal_conserves_sum (amount : Decimal) (n s : Nat)
    (hraw : 0 ≤ amount.mantissa) (hn : 0 < n)
    (l : List Decimal) (hl : split_decimal amount n s = some l) :
    mantissaSum l = amount.mantissa := by
  rw [split_decimal_eq_initial amount n s hn] at hl
  obtain rfl := Option.some.inj hl
  exact initial_splits_sum_eq amount.mantissa n s hraw hn

/-- Witness for C1 at mantissa 10001, 4 recipients, output scale 2. -/
theorem split_decimal_conserves_sum_witness :
    mantissaSum [Decimal.from_i128_with_scale 2501 2, Decimal.from_i128_with_scale 2500 2,
      Decimal.from_i128_with_scale 2500 2, Decimal.from_i128_with_scale 2500 2] = 10001 :=
  split_decimal_conserves_sum (Decimal.from_i128_with_scale 10001 2) 4 2
    (by decide) (by decide) _ eval_10001_4

/-- C2: the source has no guard for `recipients == 0`; the division
`raw / (recipients as i128)` is a division by zero, which in Rust is a
runtime trap (panic).  The embedding records that trap as `none`: no
share list is produced, and no `InvalidRecipientCount` error value exists
anywhere in the code. -/
theorem split_decimal_zero_recipients_traps (amount : Decimal) (s : Nat) :
    split_decimal amount 0 s = none := rfl

/-- C3: with a non-negative mantissa and at least one recipient, the share
at index `i` is `raw / n` plus one exactly when `i < raw % n` (truncating
division), carrying the requested scale; in particular the 10001/4 and
10001/3 examples return mantissas [2501, 2500, 2500, 2500] and
[3334, 3334, 3333]. -/
theorem split_decimal_share_formula :
    (∀ (amount : Decimal) (n s i : Nat), 0 ≤ amount.mantissa → 0 < n → i < n →
      ∀ l, split_decimal amount n s = some l →
        l[i]? = some (Decimal.from_i128_with_scale
          (amount.mantissa.tdiv n + if (i : Int) < amount.mantissa.tmod n then 1 else 0) s))
    ∧ split_decimal (Decimal.from_i128_with_scale 10001 2) 4 2 =
        some [Decimal.from_i128_with_scale 2501 2, Decimal.from_i128_with_scale 2500 2,
          Decimal.from_i128_with_scale 2500 2, Decimal.from_i128_with_scale 2500 2]
    ∧ split_decimal (Decimal.from_i128_with_scale 10001 2) 3 2 =
        some [Decimal.from_i128_with_scale 3334 2, Decimal.from_i128_with_scale 3334 2,
          Decimal.from_i128_with_scale 3333 2] := by
  refine ⟨?_, eval_10001_4, eval_10001_3⟩
  intro amount n s i _ hn hi l hl
  rw [split_decimal_eq_initial amount n s hn] at hl
  obtain rfl := Option.some.inj hl
  exact initial_splits_getElem amount.mantissa n s i hi

/-- Witness for C3 at mantissa 10001, 4 recipients, index 0. -/
theorem split_decimal_share_formula_witness :
    [Decimal.from_i128_with_scale 2501 2, Decimal.from_i128_with_scale 2500 2,
      Decimal.from_i128_with_scale 2500 2, Decimal.from_i128_with_scale 2500 2][0]?
      = some (Decimal.from_i128_with_scale
          (Int.tdiv 10001 4 + if (0 : Int) < Int.tmod 10001 4 then 1 else 0) 2) :=
  split_decimal_share_formula.1 (Decimal.from_i128_with_scale 10001 2) 4 2 0
    (by decide) (by decide) (by decide) _ eval_10001_4

/-- C4: the split never reads the input amount's own scale — shares depend
only on the raw mantissa and every share carries the requested output scale;
in particular mantissa 1234567 at input scale 0 split among 1 recipient at
output scale 2 yields the single share mantissa 1234567 at scale 2. -/
theorem split_decimal_scale_agnostic :
    (∀ (m : Int) (s₁ s₂ n os : Nat),
      split_decimal { mantissa := m, scale := s₁ } n os
        = split_decimal { mantissa := m, scale := s₂ } n os)
    ∧ (∀ (amount : Decimal) (n os : Nat) (l : List Decimal) (d : Decimal),
        split_decimal amount n os = some l → d ∈ l → d.scale = os)
    ∧ split_decimal (Decimal.from_i128_with_scale 1234567 0) 1 2 =
        some [Decimal.from_i128_with_scale 1234567 2] := by
  refine ⟨fun m s₁ s₂ n os => rfl, ?_, eval_1234567_1⟩
  intro amount n os l d hl hd
  rcases Nat.eq_zero_or_pos n with hn | hn
  · subst hn
    simp [split_decimal] at hl
  · rw [split_decimal_eq_initial amount n os hn] at hl
    obtain rfl := Option.some.inj hl
    exact (mem_initial_splits hd).1

/-- Witness for C4: the single share of the 1234567-at-scale-0 example
carries the requested output scale 2. -/
theorem split_decimal_scale_agnostic_witness :
    Decimal.scale (Decimal.from_i128_with_scale 1234567 2) = 2 :=
  split_decimal_scale_agnostic.2.1 (Decimal.from_i128_with_scale 1234567 0) 1 2
    [Decimal.from_i128_with_scale 1234567 2] (Decimal.from_i128_with_scale 1234567 2)
    eval_1234567_1 (by decide)

/-- C5: with a non-negative mantissa and at least one recipient, any two
shares returned by `split_decimal` differ by at most one minimal unit. -/
theorem split_decimal_fair_spread (amount : Decimal) (n s : Nat)
    (_hraw : 0 ≤ amount.mantissa) (hn : 0 < n)
    (l : List Decimal) (hl : split_decimal amount n s = some l) :
    ∀ a ∈ l, ∀ b ∈ l, a.mantissa - b.mantissa ≤ 1 := by
  rw [split_decimal_eq_initial amount n s hn] at hl
  obtain rfl := Option.some.inj hl
  intro a ha b hb
  obtain ⟨-, ha2, -⟩ := mem_initial_splits ha
  obtain ⟨-, hb2, -⟩ := mem_initial_splits hb
  rcases ha2 with h | h <;> rcases hb2 with h' | h' <;> omega

/-- Witness for C5 at mantissa 10001, 4 recipients: the first and the last
share differ by at most one unit. -/
theorem split_decimal_fair_spread_witness :
    Decimal.mantissa (Decimal.from_i128_with_scale 2501 2)
      - Decimal.mantissa (Decimal.from_i128_with_scale 2500 2) ≤ 1 :=
  split_decimal_fair_spread (Decimal.from_i128_with_scale 10001 2) 4 2
    (by decide) (by decide) _ eval_10001_4
    (Decimal.from_i128_with_scale 2501 2) (by decide)
    (Decimal.from_i128_with_scale 2500 2) (by decide)

/-- C6: whenever `split_decimal` returns at all (recipients ≥ 1), the
returned list has length exactly `recipients`; zero-mantissa shares are kept. -/
theorem split_decimal_length (amount : Decimal) (n s : Nat) (hn : 0 < n)
    (l : List Decimal) (hl : split_decimal amount n s = some l) :
    l.length = n := by
  rw [split_decimal_eq_initial amount n s hn] at hl
  obtain rfl := Option.some.inj hl
  exact initial_splits_length amount.mantissa n s

/-- Witness for C6 at mantissa 10001, 4 recipients. -/
theorem split_decimal_length_witness :
    ([Decimal.from_i128_with_scale 2501 2, Decimal.from_i128_with_scale 2500 2,
      Decimal.from_i128_with_scale 2500 2, Decimal.from_i128_with_scale 2500 2]).length = 4 :=
  split_decimal_length (Decimal.from_i128_with_scale 10001 2) 4 2 (by decide) _ eval_10001_4

/-- C7: the embedding of `split_decimal` is a pure function, so two calls on
identical inputs return the identical share list; the Rust body only reads
its arguments and touches no other state. -/
theorem split_decimal_deterministic (amount : Decimal) (n s : Nat) :
    split_decimal amount n s = split_decimal amount n s := rfl

/-- C8: with a non-negative mantissa and at least one recipient the
reconciliation diff `raw - sum` starts non-negative (in fact zero), the
while-loop exits on its first test, and `split_decimal` as a whole
terminates with a result. -/
theorem split_decimal_reconciliation_terminates (amount : Decimal) (n s : Nat)
    (hraw : 0 ≤ amount.mantissa) (hn : 0 < n) :
    0 ≤ amount.mantissa - mantissaSum (initial_splits amount.mantissa n s)
    ∧ reconcile amount.mantissa s (initial_splits amount.mantissa n s)
        = initial_splits amount.mantissa n s
    ∧ split_decimal amount n s = some (initial_splits amount.mantissa n s) := by
  have hsum := initial_splits_sum_eq amount.mantissa n s hraw hn
  exact ⟨by omega, reconcile_of_le _ _ _ (by omega),
    split_decimal_eq_initial amount n s hn⟩

/-- Witness for C8 at mantissa 10001, 4 recipients, output scale 2. -/
theorem split_decimal_reconciliation_terminates_witness :
    0 ≤ Decimal.mantissa (Decimal.from_i128_with_scale 10001 2)
        - mantissaSum (initial_splits 10001 4 2)
    ∧ reconcile 10001 2 (initial_splits 10001 4 2) = initial_splits 10001 4 2
    ∧ split_decimal (Decimal.from_i128_with_scale 10001 2) 4 2
        = some (initial_splits 10001 4 2) :=
  split_decimal_reconciliation_terminates (Decimal.from_i128_with_scale 10001 2) 4 2
    (by decide) (by decide)

/-- Shares in weakly decreasing order of mantissa (the order checked by the
source's `test_non_increasing_order`). -/
def nonIncreasingMantissas (l : List Decimal) : Prop :=
  l.Pairwise fun a b => b.mantissa ≤ a.mantissa

/-- C9: with a non-negative mantissa and at least one recipient the share
mantissas returned by `split_decimal` are non-increasing in index order. -/
theorem split_decimal_non_increasing (amount : Decimal) (n s : Nat)
    (_hraw : 0 ≤ amount.mantissa) (hn : 0 < n)
    (l : List Decimal) (hl : split_decimal amount n s = some l) :
    nonIncreasingMantissas l := by
  rw [split_decimal_eq_initial amount n s hn] at hl
  obtain rfl := Option.some.inj hl
  unfold nonIncreasingMantissas initial_splits
  rw [List.pairwise_map]
  refine (List.pairwise_lt_range n).imp ?_
  intro i j hij
  dsimp [Decimal.from_i128_with_scale]
  split_ifs <;> omega

/-- Witness for C9 at mantissa 10001, 4 recipients, output scale 2. -/
theorem split_decimal_non_increasing_witness :
    nonIncreasingMantissas [Decimal.from_i128_with_scale 2501 2,
      Decimal.from_i128_with_scale 2500 2, Decimal.from_i128_with_scale 2500 2,
      Decimal.from_i128_with_scale 2500 2] :=
  split_decimal_non_increasing (Decimal.from_i128_with_scale 10001 2) 4 2
    (by decide) (by decide) _ eval_10001_4

/-- C10: for a negative mantissa not evenly divisible by the recipient count
the truncating division rounds toward zero, no recipient receives an extra
unit (the remainder is negative, below every index), the reconciliation diff
is negative so the loop never runs, and the returned mantissas sum to
`raw - raw % n`, not `raw`: conservation silently fails. -/
theorem split_decimal_negative_breaks_conservation (amount : Decimal) (n s : Nat)
    (hraw : amount.mantissa < 0) (hn : 0 < n)
    (hdiv : amount.mantissa.tmod n ≠ 0) :
    split_decimal amount n s = some (initial_splits amount.mantissa n s)
    ∧ (initial_splits amount.mantissa n s).length = n
    ∧ (∀ d ∈ initial_splits amount.mantissa n s,
        d.mantissa = amount.mantissa.tdiv n)
    ∧ amount.mantissa - mantissaSum (initial_splits amount.mantissa n s) < 0
    ∧ mantissaSum (initial_splits amount.mantissa n s) ≠ amount.mantissa := by
  have hm : amount.mantissa.tmod n ≤ 0 := tmod_nonpos _ _ (le_of_lt hraw)
  have hsum : mantissaSum (initial_splits amount.mantissa n s)
      = amount.mantissa - amount.mantissa.tmod n := by
    rw [mantissaSum_initial_splits]
    have h3 := Int.tmod_add_tdiv amount.mantissa (n : Int)
    have hn' : (0 : Int) < n := by exact_mod_cast hn
    set y := (n : Int) * amount.mantissa.tdiv (n : Int) with hy
    omega
  refine ⟨split_decimal_eq_initial amount n s hn,
    initial_splits_length amount.mantissa n s,
    fun d hd => (mem_initial_splits hd).2.2 hm, by omega, by omega⟩

/-- Witness for C10 at mantissa -7, 3 recipients, output scale 2: the loop is
skipped and the shares sum to -6, not -7. -/
theorem split_decimal_negative_breaks_conservation_witness :
    split_decimal (Decimal.from_i128_with_scale (-7) 2) 3 2
      = some (initial_splits (-7) 3 2)
    ∧ mantissaSum (initial_splits (-7) 3 2) ≠ -7 := by
  have h := split_decimal_negative_breaks_conservation
    (Decimal.from_i128_with_scale (-7) 2) 3 2 (by decide) (by decide) (by decide)
  exact ⟨h.1, h.2.2.2.2⟩
